import Mathlib

/- Verification of the MCEM/importance-sampling core of the MC-CBN
   hidden conjunctive Bayesian network inference engine
   (src/mcem_hcbn.cpp, src/mcem.hpp).

   Shallow embedding conventions:
   * `double`/`float` values are modelled as `ℚ`; the transcendental
     library functions `log` and `exp` and the constant `DBL_EPSILON`
     are passed as explicit parameters, never interpreted.
   * The pseudo-random draws (`rexp_std`, `rdiscrete_std`) are passed
     as explicit inputs: the exponential variates as a matrix of rates
     (`T_draws`), the sampling-time draws as a vector, and the indices
     returned by the discrete distribution as a list.
   * Eigen vectors and matrices are `List ℚ` / `List (List ℚ)` in
     row-major order; boolean genotype rows are `List Bool`.
   * The poset adjacency matrix is a `List (List ℕ)` of 0/1 entries.
   * Code of the repository that is declared in mcem.hpp but whose
     implementation is not under src/ (Model::has_cycles,
     Model::topological_sort, Model::set_lambda with clamping) is
     modelled from the spec; such definitions carry a doc comment
     starting with `Modelled from the spec:`. -/

namespace MCCBN

/- ----------------------------------------------------------------- -/
/- Basic vector / matrix helpers (Eigen operations used by the code) -/
/- ----------------------------------------------------------------- -/

/-- Dot product of two vectors, as in Eigen's `a.dot(b)` / `row * vec`. -/
def dotProd : List ℚ → List ℚ → ℚ
  | a :: as, b :: bs => a * b + dotProd as bs
  | _, _ => 0

/-- Entry `(i, j)` of a row-major matrix, defaulting to 0 outside. -/
def rowGet (m : List (List ℚ)) (i j : ℕ) : ℚ :=
  (m.getD i []).getD j 0

/-- Materialise an `n × p` matrix from an entry oracle, mirroring an
Eigen matrix of fixed dimensions filled with the given draws. -/
def fillMat (draws : List (List ℚ)) (n p : ℕ) : List (List ℚ) :=
  (List.range n).map (fun i => (List.range p).map (fun j => rowGet draws i j))

/- ----------------------------------------------------------------- -/
/- Poset model                                                       -/
/- ----------------------------------------------------------------- -/

/-- Entry `(u, v)` of the integer adjacency matrix. -/
def adjGet (m : List (List ℕ)) (u v : ℕ) : ℕ :=
  (m.getD u []).getD v 0

/-- Parents (in-neighbours) of node `v` in the poset adjacency matrix:
`u` is a parent of `v` iff entry `(u, v)` is 1 (edge `u → v`).
This mirrors `boost::in_edges` on the graph built by
`adjacency_mat2list`. -/
def parentsOf (m : List (List ℕ)) (p : ℕ) (v : ℕ) : List ℕ :=
  (List.range p).filter (fun u => adjGet m u v == 1)

/-- Successors (out-neighbours) of node `v`. -/
def succsOf (m : List (List ℕ)) (p : ℕ) (v : ℕ) : List ℕ :=
  (List.range p).filter (fun w => adjGet m v w == 1)

/-- One expansion step of a reachable set. -/
def stepClose (m : List (List ℕ)) (p : ℕ) (s : List ℕ) : List ℕ :=
  (s ++ (s.map (succsOf m p)).flatten).dedup

/-- Nodes reachable from `v` in at least one step. -/
def reachFrom (m : List (List ℕ)) (p : ℕ) (v : ℕ) : List ℕ :=
  Nat.iterate (stepClose m p) p (succsOf m p v)

/-- Modelled from the spec: `Model::has_cycles` (declared in mcem.hpp,
implementation not under src/) records whether the poset contains a
directed cycle; a cycle exists iff some vertex reaches itself through
at least one edge. -/
def hasCycleB (m : List (List ℕ)) (p : ℕ) : Bool :=
  (List.range p).any (fun v => (reachFrom m p v).contains v)

/-- Error kinds surfaced at the entry-point boundary; the only one the
source throws is `not_acyclic_exception`. -/
inductive ErrKind where
  | NotAcyclic
  | NotImplemented
  deriving DecidableEq, Repr

/- ----------------------------------------------------------------- -/
/- Hamming distances (hamming_dist_mat)                              -/
/- ----------------------------------------------------------------- -/

/-- Hamming distance of one boolean row against the observed genotype:
the number of positions where the entries differ, as in
`(x.array() != y.replicate(N, 1).array()).rowwise().count()`. -/
def rowHamming (r y : List Bool) : ℕ :=
  (r.zip y).countP (fun q => q.1 != q.2)

/-- Row-wise Hamming distance of a sample matrix against a genotype. -/
def hamming_dist_mat (x : List (List Bool)) (y : List Bool) : List ℕ :=
  x.map (fun r => rowHamming r y)

/- ----------------------------------------------------------------- -/
/- Genotype simulator (sample_genotypes)                             -/
/- ----------------------------------------------------------------- -/

/-- Max over the already-computed occurrence times of the parents,
starting from 0, as in the `T_max` loop of `sample_genotypes`. -/
def maxParents (S : ℕ → ℚ) (l : List ℕ) : ℚ :=
  l.foldl (fun m u => max m (S u)) 0

/-- One node update of the occurrence-time recurrence:
`T_events_sum(i, v) = T_events(i, v) + T_max`. -/
def stepS (parents : ℕ → List ℕ) (T : ℕ → ℚ) (S : ℕ → ℚ) (v : ℕ) : ℕ → ℚ :=
  Function.update S v (T v + maxParents S (parents v))

/-- Occurrence times obtained by folding the node updates over a
processing order, starting from a given state. -/
def computeSFrom (parents : ℕ → List ℕ) (T : ℕ → ℚ) (S0 : ℕ → ℚ)
    (l : List ℕ) : ℕ → ℚ :=
  l.foldl (stepS parents T) S0

/-- Occurrence times `T_events_sum(i, ·)` for one sample: the code
initialises the matrix to zero and walks `topo_path` in reverse
(i.e. in dependency order), updating each node once. -/
def computeS (parents : ℕ → List ℕ) (T : ℕ → ℚ) (order : List ℕ) : ℕ → ℚ :=
  computeSFrom parents T (fun _ => 0) order

/-- `sample_genotypes`: given the exponential draws `T_events`
(`rexp_std` output, passed explicitly) and the sampling times
`T_sampling` (either drawn or supplied by the caller), produce the
boolean observation matrix. `obs` is initialised to `false` and entry
`(i, v)` is set for the nodes `v` visited along the processing order
when `T_events_sum(i, v) ≤ T_sampling(i)`. The processing order is
the reversal of `Model::topo_path`. -/
def sample_genotypes (N p : ℕ) (parents : ℕ → List ℕ) (order : List ℕ)
    (T_events : List (List ℚ)) (T_sampling : List ℚ) : List (List Bool) :=
  (List.range N).map (fun i =>
    (List.range p).map (fun v =>
      order.contains v &&
        decide (computeS parents (fun j => rowGet T_events i j) order v
                  ≤ T_sampling.getD i 0)))

/- ----------------------------------------------------------------- -/
/- Log-Bernoulli kernel and complete-data log-likelihood             -/
/- ----------------------------------------------------------------- -/

/-- `log_bernoulli_process`: the log Bernoulli-process density of each
distance, with the `eps == 0` guard substituting `DBL_EPSILON`
(`dblEps`) for entries with a non-zero distance. -/
def log_bernoulli_process (log : ℚ → ℚ) (dblEps : ℚ) (dist : List ℚ)
    (eps : ℚ) (p : ℕ) : List ℚ :=
  if eps = 0 then
    dist.map (fun d =>
      if d ≠ 0 then log (eps + dblEps) * d + log (1 - eps - dblEps) * ((p : ℚ) - d)
      else 0)
  else
    dist.map (fun d => log eps * d + log (1 - eps) * ((p : ℚ) - d))

/-- `complete_log_likelihood`: complete-data log-likelihood
`W · Σ_j log λ_j − Σ_{i,j} Tdiff[i,j]·λ_j + Σ_i log_bern(dist_i, ε, p)`
with the same `eps == 0` policy as `log_bernoulli_process`. -/
def complete_log_likelihood (log : ℚ → ℚ) (dblEps : ℚ) (lambda : List ℚ)
    (eps : ℚ) (Tdiff : List (List ℚ)) (dist : List ℚ) (W : ℚ) : ℚ :=
  let p := lambda.length
  let base := W * (lambda.map log).sum - (Tdiff.map (fun r => dotProd r lambda)).sum
  if eps = 0 then
    base + (dist.map (fun d =>
      if d ≠ 0 then log (eps + dblEps) * d + log (1 - eps - dblEps) * ((p : ℚ) - d)
      else 0)).sum
  else
    base + log eps * dist.sum + log (1 - eps) * (dist.map (fun d => (p : ℚ) - d)).sum

/- ----------------------------------------------------------------- -/
/- Importance sampler (importance_weight)                            -/
/- ----------------------------------------------------------------- -/

/-- The `DataImportanceSampling` record. Its C++ constructor allocates
`w`, `dist`, `Tdiff` without initialising them, so the record the
function starts from is an arbitrary `init` input. -/
structure ImportanceRecord where
  w : List ℚ
  dist : List ℕ
  Tdiff : List (List ℚ)
  deriving DecidableEq, Repr

/-- `importance_weight`: importance weights and sufficient statistics
for one observed genotype. Randomness is external: `T_draws` are the
exponential draws used by `sample_genotypes`, `Ts_draws` the drawn
sampling times (used when `sta` is false) and `idx_draws` the indices
produced by `rdiscrete_std` in the rejection branch. `init` is the
freshly allocated (uninitialised) record. The `version` argument is
accepted and, as in the source, never read. -/
def importance_weight (genotype : List Bool) (L p : ℕ)
    (parents : ℕ → List ℕ) (order : List ℕ) (eps time : ℚ)
    (sampling : String) (version : ℕ) (sta : Bool)
    (log exp : ℚ → ℚ) (dblEps : ℚ)
    (T_draws : List (List ℚ)) (Ts_draws : List ℚ) (idx_draws : List ℕ)
    (init : ImportanceRecord) : ImportanceRecord :=
  if sampling = "forward" then
    let T_sampling := if sta then List.replicate L time else Ts_draws
    let Tdiff := fillMat T_draws L p
    let samples := sample_genotypes L p parents order T_draws T_sampling
    let dist := hamming_dist_mat samples genotype
    { w := dist.map (fun d => eps ^ d * (1 - eps) ^ (p - d)),
      dist := dist, Tdiff := Tdiff }
  else if sampling = "add-remove" then
    init
  else if sampling = "rejection" then
    let K := p * L
    let T_sampling := if sta then List.replicate K time else Ts_draws
    let Tdiff_pool := fillMat T_draws K p
    let genotype_pool := sample_genotypes K p parents order T_draws T_sampling
    let dist_pool := hamming_dist_mat genotype_pool genotype
    let q_prob := dist_pool.map (fun d => eps ^ d * (1 - eps) ^ (p - d))
    let random := decide (q_prob.sum = 0)
    let q_prob2 := if random then List.replicate K (1 : ℚ) else q_prob
    let q_prob_sum := q_prob2.sum
    let idxs := idx_draws.take L
    let dist := idxs.map (fun i => dist_pool.getD i 0)
    let Tdiff := idxs.map (fun i => Tdiff_pool.getD i [])
    let w :=
      if random then
        (log_bernoulli_process log dblEps (dist.map (fun d : ℕ => (d : ℚ))) eps p).map exp
      else
        List.replicate L (q_prob_sum / (dist_pool.length : ℚ))
    { w := w, dist := dist, Tdiff := Tdiff }
  else
    init

/- ----------------------------------------------------------------- -/
/- MCEM driver (MCEM_hcbn)                                           -/
/- ----------------------------------------------------------------- -/

/-- M-step error-rate update: `model.set_epsilon(expected_dist.sum() / (N * p))`. -/
def mstep_epsilon (Edist : List ℚ) (N p : ℕ) : ℚ :=
  Edist.sum / ((N : ℚ) * (p : ℚ))

/-- Modelled from the spec: `Model::set_lambda` with a `max_lambda`
bound (declared in mcem.hpp, implementation not under src/) clamps
each rate to at most `max_lambda`; a non-finite rate (arising from a
zero column sum, modelled here by the `s = 0` case) is replaced by
`max_lambda`. -/
def set_lambda_clamped (s W maxLam : ℚ) : ℚ :=
  if s = 0 then maxLam else min (W / s) maxLam

/-- M-step rate update:
`model.set_lambda((Tdiff_colsum / W).array().inverse(), max_lambda)`
where `Tdiff_colsum = weights * expected_Tdiff`. -/
def mstep_lambda (weights : List ℚ) (ET : List (List ℚ)) (W maxLam : ℚ)
    (p : ℕ) : List ℚ :=
  (List.range p).map (fun j =>
    set_lambda_clamped (dotProd weights (ET.map (fun r => r.getD j 0))) W maxLam)

/-- Mutable state of the MCEM outer loop: the moving window boundary
(the local variable `update_step_size`), the previous window averages
(`avg_lambda`, `avg_eps`), the window accumulators (`avg_lambda_current`,
`avg_eps_current`, `avg_llhood`), the model parameters, the constant
`tol_comparison` flag, and a flag recording that the `break` was taken. -/
structure EMState where
  boundary : ℕ
  avg_lambda : List ℚ
  avg_eps : ℚ
  cur_lambda : List ℚ
  cur_eps : ℚ
  cur_llhood : ℚ
  lambda : List ℚ
  eps : ℚ
  tol_comparison : Bool
  broke : Bool
  deriving DecidableEq, Repr

/-- The window-boundary block executed when `iter == update_step_size`:
divide the accumulators by `update_step_size`, test convergence of the
averaged parameters against the previous window (taking the `break` if
it holds), otherwise commit the averages, advance the boundary and
reset the accumulators. -/
def windowUpdate (uss : ℕ) (tol : ℚ) (p : ℕ) (s : EMState) : EMState :=
  let cl := s.cur_lambda.map (fun x => x / (uss : ℚ))
  let ce := s.cur_eps / (uss : ℚ)
  let cll := s.cur_llhood / (uss : ℚ)
  if s.tol_comparison && decide (|s.avg_eps - ce| ≤ tol) &&
      (s.avg_lambda.zip cl).all (fun q => decide (|q.1 - q.2| ≤ tol)) then
    { s with cur_lambda := cl, cur_eps := ce, cur_llhood := cll, broke := true }
  else
    { s with avg_lambda := cl, avg_eps := ce,
             boundary := s.boundary + uss, tol_comparison := true,
             cur_lambda := List.replicate p 0, cur_eps := 0, cur_llhood := 0 }

/-- The unsigned 32-bit modulus of the C++ `unsigned int` arithmetic. -/
def U32 : ℕ := 4294967296

/-- `max_iter - update_step_size + control_EM.update_step_size` computed
in `unsigned int` arithmetic (left to right, modulo `2^32`). -/
def numIterFinal (mi b uss : ℕ) : ℕ :=
  ((mi + (U32 - b % U32)) % U32 + uss) % U32

/-- One iteration of the MCEM outer loop. The per-observation E-step
expectations (`expected_dist`, `expected_Tdiff`, computed in the source
from `importance_weight` outputs and the thread-local RNG draws) are
supplied per iteration by the oracles `Edist` and `ETdiff`. A taken
`break` is modelled by the `broke` flag, which freezes the state. -/
def emIter (max_iter uss : ℕ) (tol maxLam : ℚ) (N p : ℕ)
    (weights : List ℚ) (Edist : ℕ → List ℚ) (ETdiff : ℕ → List (List ℚ))
    (log : ℚ → ℚ) (dblEps : ℚ) (iter : ℕ) (s : EMState) : EMState :=
  if s.broke then s
  else
    let s1 := if iter = s.boundary then windowUpdate uss tol p s else s
    if s1.broke then s1
    else
      let E := Edist iter
      let ET := ETdiff iter
      let newEps := mstep_epsilon E N p
      let newLambda := mstep_lambda weights ET weights.sum maxLam p
      let ll := complete_log_likelihood log dblEps newLambda newEps ET E weights.sum
      let s2 := { s1 with
        lambda := newLambda, eps := newEps,
        cur_lambda := (s1.cur_lambda.zip newLambda).map (fun q => q.1 + q.2),
        cur_eps := s1.cur_eps + newEps,
        cur_llhood := s1.cur_llhood + ll }
      if iter + 1 = max_iter then
        let num : ℚ := (numIterFinal max_iter s2.boundary uss : ℕ)
        { s2 with cur_lambda := s2.cur_lambda.map (fun x => x / num),
                  cur_eps := s2.cur_eps / num,
                  cur_llhood := s2.cur_llhood / num }
      else s2

/-- Initial loop state: zero accumulators, boundary at
`update_step_size`, the model carrying its initial parameters. -/
def mcemInitState (p uss : ℕ) (lambda0 : List ℚ) (eps0 : ℚ) : EMState :=
  { boundary := uss,
    avg_lambda := List.replicate p 0, avg_eps := 0,
    cur_lambda := List.replicate p 0, cur_eps := 0, cur_llhood := 0,
    lambda := lambda0, eps := eps0,
    tol_comparison := true, broke := false }

/-- Result of `MCEM_hcbn`: the model parameters written back on exit
(`set_lambda`, `set_epsilon`, `set_llhood`) and the returned value. -/
structure MCEMResult where
  lambda : List ℚ
  eps : ℚ
  llhood : ℚ
  ret : ℚ
  deriving DecidableEq, Repr

/-- `MCEM_hcbn`: run the outer EM loop for at most `max_iter`
iterations, then write the window averages back into the model and
return the averaged log-likelihood. -/
def MCEM_hcbn (max_iter uss : ℕ) (tol maxLam : ℚ) (N p : ℕ)
    (weights lambda0 : List ℚ) (eps0 : ℚ)
    (Edist : ℕ → List ℚ) (ETdiff : ℕ → List (List ℚ))
    (log : ℚ → ℚ) (dblEps : ℚ) : MCEMResult :=
  let sF := (List.range max_iter).foldl
    (fun s i => emIter max_iter uss tol maxLam N p weights Edist ETdiff log dblEps i s)
    (mcemInitState p uss lambda0 eps0)
  { lambda := sF.cur_lambda, eps := sF.cur_eps,
    llhood := sF.cur_llhood, ret := sF.cur_llhood }

/-- State of the loop just before its last iteration. -/
def mcemPreState (max_iter uss : ℕ) (tol maxLam : ℚ) (N p : ℕ)
    (weights lambda0 : List ℚ) (eps0 : ℚ)
    (Edist : ℕ → List ℚ) (ETdiff : ℕ → List (List ℚ))
    (log : ℚ → ℚ) (dblEps : ℚ) : EMState :=
  (List.range (max_iter - 1)).foldl
    (fun s i => emIter max_iter uss tol maxLam N p weights Edist ETdiff log dblEps i s)
    (mcemInitState p uss lambda0 eps0)

/-- State of the loop during its last iteration, after the
window-boundary block (if the last iteration sits on a boundary). -/
def mcemLastEntryState (max_iter uss : ℕ) (tol maxLam : ℚ) (N p : ℕ)
    (weights lambda0 : List ℚ) (eps0 : ℚ)
    (Edist : ℕ → List ℚ) (ETdiff : ℕ → List (List ℚ))
    (log : ℚ → ℚ) (dblEps : ℚ) : EMState :=
  let s := mcemPreState max_iter uss tol maxLam N p weights lambda0 eps0 Edist ETdiff log dblEps
  if max_iter - 1 = s.boundary then windowUpdate uss tol p s else s

/- ----------------------------------------------------------------- -/
/- Entry points (RcppExport wrappers)                                -/
/- ----------------------------------------------------------------- -/

/-- `_MCEM_hcbn` entry point: builds the model from the adjacency
matrix, rejects cyclic posets, then runs `MCEM_hcbn`. The topological
order is computed by `Model::topological_sort` (implementation not
under src/); it is taken here as the `order` input, which the oracles
already incorporate. -/
def MCEM_hcbn_rcpp (poset : List (List ℕ)) (p : ℕ)
    (max_iter uss : ℕ) (tol maxLam : ℚ) (N : ℕ)
    (weights lambda0 : List ℚ) (eps0 : ℚ)
    (Edist : ℕ → List ℚ) (ETdiff : ℕ → List (List ℚ))
    (log : ℚ → ℚ) (dblEps : ℚ) : Except ErrKind MCEMResult :=
  if hasCycleB poset p then Except.error ErrKind.NotAcyclic
  else Except.ok (MCEM_hcbn max_iter uss tol maxLam N p weights lambda0 eps0 Edist ETdiff log dblEps)

/-- `obs_log_likelihood`: rejects cyclic posets, then sums
`log(Σ w / L)` of the per-observation importance weights. The
per-observation RNG draws are the oracles `Tev`, `Tsd`, `ix`. -/
def obs_log_likelihood (obs : List (List Bool)) (poset : List (List ℕ))
    (p : ℕ) (order : List ℕ) (eps : ℚ) (times : List ℚ) (L : ℕ)
    (sampling : String) (version : ℕ) (sta : Bool)
    (log exp : ℚ → ℚ) (dblEps : ℚ)
    (Tev : ℕ → List (List ℚ)) (Tsd : ℕ → List ℚ) (ix : ℕ → List ℕ)
    (init : ImportanceRecord) : Except ErrKind ℚ :=
  if hasCycleB poset p then Except.error ErrKind.NotAcyclic
  else Except.ok (((List.range obs.length).map (fun i =>
    log ((importance_weight (obs.getD i []) L p (parentsOf poset p) order
            eps (times.getD i 0) sampling version sta log exp dblEps
            (Tev i) (Tsd i) (ix i) init).w.sum / (L : ℚ)))).sum)

/-- `_importance_weight_genotype` entry point (`importance_weight_single`):
rejects cyclic posets, then computes the importance record of one
genotype. -/
def importance_weight_single (genotype : List Bool) (L : ℕ)
    (poset : List (List ℕ)) (p : ℕ) (order : List ℕ) (eps time : ℚ)
    (sampling : String) (version : ℕ) (sta : Bool)
    (log exp : ℚ → ℚ) (dblEps : ℚ)
    (T_draws : List (List ℚ)) (Ts_draws : List ℚ) (idx_draws : List ℕ)
    (init : ImportanceRecord) : Except ErrKind ImportanceRecord :=
  if hasCycleB poset p then Except.error ErrKind.NotAcyclic
  else Except.ok (importance_weight genotype L p (parentsOf poset p) order
    eps time sampling version sta log exp dblEps T_draws Ts_draws idx_draws init)

/-- `_sample_genotypes` entry point: rejects cyclic posets, then runs
the genotype simulator. -/
def sample_genotypes_rcpp (N : ℕ) (poset : List (List ℕ)) (p : ℕ)
    (order : List ℕ) (T_events : List (List ℚ)) (T_sampling : List ℚ) :
    Except ErrKind (List (List Bool)) :=
  if hasCycleB poset p then Except.error ErrKind.NotAcyclic
  else Except.ok (sample_genotypes N p (parentsOf poset p) order T_events T_sampling)

/- ----------------------------------------------------------------- -/
/- General helper lemmas                                             -/
/- ----------------------------------------------------------------- -/

theorem getD_map_of_lt {α β : Type} (f : α → β) (l : List α) (n : ℕ)
    (h : n < l.length) (d : α) (d' : β) :
    (l.map f).getD n d' = f (l.getD n d) := by
  rw [List.getD_eq_getElem _ _ (by simpa using h), List.getD_eq_getElem _ _ h,
    List.getElem_map]

theorem length_sample_genotypes (N p : ℕ) (parents : ℕ → List ℕ)
    (order : List ℕ) (T : List (List ℚ)) (Ts : List ℚ) :
    (sample_genotypes N p parents order T Ts).length = N := by
  simp [sample_genotypes]

theorem length_hamming_dist_mat (x : List (List Bool)) (y : List Bool) :
    (hamming_dist_mat x y).length = x.length := by
  simp [hamming_dist_mat]

theorem length_log_bernoulli_process (log : ℚ → ℚ) (dblEps : ℚ)
    (dist : List ℚ) (eps : ℚ) (p : ℕ) :
    (log_bernoulli_process log dblEps dist eps p).length = dist.length := by
  unfold log_bernoulli_process
  split <;> simp

/- ----------------------------------------------------------------- -/
/- C1                                                                -/
/- ----------------------------------------------------------------- -/

/-- C1: the `"add-remove"` branch of `importance_weight` is an empty
TODO: the function returns the freshly allocated record untouched, and
the `importance_weight_single` entry point consequently returns that
record successfully instead of rejecting with a `NotImplemented`
error. -/
theorem importance_weight_add_remove_noop :
    (∀ (genotype : List Bool) (L p : ℕ) (parents : ℕ → List ℕ)
      (order : List ℕ) (eps time : ℚ) (version : ℕ) (sta : Bool)
      (log exp : ℚ → ℚ) (dblEps : ℚ) (T_draws : List (List ℚ))
      (Ts_draws : List ℚ) (idx_draws : List ℕ) (init : ImportanceRecord),
      importance_weight genotype L p parents order eps time "add-remove"
        version sta log exp dblEps T_draws Ts_draws idx_draws init = init) ∧
    importance_weight_single [false] 1 [[0]] 1 [0] 0 0 "add-remove" 0 false
      (fun x => x) (fun x => x) 0 [[1]] [1] [0] ⟨[5], [7], [[9]]⟩
      = Except.ok ⟨[5], [7], [[9]]⟩ := by
  constructor
  · intros
    rfl
  · rfl

/- ----------------------------------------------------------------- -/
/- C2                                                                -/
/- ----------------------------------------------------------------- -/

/-- C2: when the poset adjacency matrix contains a directed cycle,
each of the four entry points (`_MCEM_hcbn`, `obs_log_likelihood`,
`_importance_weight_genotype`, `_sample_genotypes`) fails with
`NotAcyclic` before any inference or sampling is performed, returning
no partial result. -/
theorem entry_points_reject_cyclic (poset : List (List ℕ)) (p : ℕ)
    (hcyc : hasCycleB poset p = true)
    (max_iter uss : ℕ) (tol maxLam : ℚ) (N : ℕ)
    (weights lambda0 : List ℚ) (eps0 : ℚ)
    (Edist : ℕ → List ℚ) (ETdiff : ℕ → List (List ℚ))
    (obs : List (List Bool)) (order : List ℕ) (eps : ℚ) (times : List ℚ)
    (L : ℕ) (sampling : String) (version : ℕ) (sta : Bool)
    (log exp : ℚ → ℚ) (dblEps : ℚ)
    (Tev : ℕ → List (List ℚ)) (Tsd : ℕ → List ℚ) (ix : ℕ → List ℕ)
    (init : ImportanceRecord) (genotype : List Bool) (time : ℚ)
    (T_draws : List (List ℚ)) (Ts_draws : List ℚ) (idx_draws : List ℕ)
    (N2 : ℕ) (T_events : List (List ℚ)) (T_sampling : List ℚ) :
    MCEM_hcbn_rcpp poset p max_iter uss tol maxLam N weights lambda0 eps0
        Edist ETdiff log dblEps = Except.error ErrKind.NotAcyclic ∧
    obs_log_likelihood obs poset p order eps times L sampling version sta
        log exp dblEps Tev Tsd ix init = Except.error ErrKind.NotAcyclic ∧
    importance_weight_single genotype L poset p order eps time sampling
        version sta log exp dblEps T_draws Ts_draws idx_draws init
        = Except.error ErrKind.NotAcyclic ∧
    sample_genotypes_rcpp N2 poset p order T_events T_sampling
        = Except.error ErrKind.NotAcyclic := by
  refine ⟨?_, ?_, ?_, ?_⟩ <;>
    simp [MCEM_hcbn_rcpp, obs_log_likelihood, importance_weight_single,
      sample_genotypes_rcpp, hcyc]

/-- Witness for C2: the two-node cycle `0 → 1 → 0` is rejected by all
four entry points. -/
theorem entry_points_reject_cyclic_witness :
    hasCycleB [[0, 1], [1, 0]] 2 = true ∧
    (MCEM_hcbn_rcpp [[0, 1], [1, 0]] 2 1 1 0 1 1 [1] [1] 0
        (fun _ => [0]) (fun _ => [[1]]) (fun x => x) 0
        = Except.error ErrKind.NotAcyclic ∧
      obs_log_likelihood [[true, false]] [[0, 1], [1, 0]] 2 [0, 1] 0 [1] 1
        "forward" 0 false (fun x => x) (fun x => x) 0
        (fun _ => [[1, 1]]) (fun _ => [1]) (fun _ => [0]) ⟨[], [], []⟩
        = Except.error ErrKind.NotAcyclic ∧
      importance_weight_single [true, false] 1 [[0, 1], [1, 0]] 2 [0, 1] 0 1
        "forward" 0 false (fun x => x) (fun x => x) 0 [[1, 1]] [1] [0]
        ⟨[], [], []⟩ = Except.error ErrKind.NotAcyclic ∧
      sample_genotypes_rcpp 1 [[0, 1], [1, 0]] 2 [0, 1] [[1, 1]] [1]
        = Except.error ErrKind.NotAcyclic) :=
  ⟨by decide,
    entry_points_reject_cyclic [[0, 1], [1, 0]] 2 (by decide) 1 1 0 1 1 [1] [1] 0
      (fun _ => [0]) (fun _ => [[1]]) [[true, false]] [0, 1] 0 [1] 1 "forward" 0
      false (fun x => x) (fun x => x) 0 (fun _ => [[1, 1]]) (fun _ => [1])
      (fun _ => [0]) ⟨[], [], []⟩ [true, false] 1 [[1, 1]] [1] [0] 1 [[1, 1]] [1]⟩

/- ----------------------------------------------------------------- -/
/- C8                                                                -/
/- ----------------------------------------------------------------- -/

/-- C8: with `eps = 0` and all distances zero, the complete-data
log-likelihood is exactly `W · Σ_j log λ_j − Σ_{i,j} Tdiff[i,j]·λ_j`:
the Bernoulli term contributes exactly zero. -/
theorem complete_log_likelihood_eps0_dist0 (log : ℚ → ℚ) (dblEps : ℚ)
    (lambda : List ℚ) (Tdiff : List (List ℚ)) (dist : List ℚ) (W : ℚ)
    (hpos : ∀ x ∈ lambda, 0 < x) (hd : ∀ d ∈ dist, d = 0) :
    complete_log_likelihood log dblEps lambda 0 Tdiff dist W
      = W * (lambda.map log).sum
        - (Tdiff.map (fun r => dotProd r lambda)).sum := by
  unfold complete_log_likelihood
  simp only [if_pos rfl]
  have hz : (dist.map (fun d =>
      if d ≠ 0 then
        log (0 + dblEps) * d + log (1 - 0 - dblEps) * ((lambda.length : ℚ) - d)
      else 0)).sum = 0 := by
    apply List.sum_eq_zero
    intro x hx
    obtain ⟨d, hdm, rfl⟩ := List.mem_map.1 hx
    simp [hd d hdm]
  rw [hz, add_zero]
  simp

/-- Witness for C8 at `lambda = [1, 2]`, `Tdiff = [[2, 3]]`,
`dist = [0, 0]`, `W = 3`, `log` instantiated to the identity. -/
theorem complete_log_likelihood_eps0_dist0_witness :
    (∀ x ∈ [(1 : ℚ), 2], 0 < x) ∧ (∀ d ∈ [(0 : ℚ), 0], d = 0) ∧
    complete_log_likelihood (fun x => x) 0 [1, 2] 0 [[2, 3]] [0, 0] 3
      = 3 * (([(1 : ℚ), 2]).map (fun x => x)).sum
        - (([[(2 : ℚ), 3]]).map (fun r => dotProd r [1, 2])).sum :=
  ⟨by decide, by decide,
    complete_log_likelihood_eps0_dist0 (fun x => x) 0 [1, 2] [[2, 3]] [0, 0] 3
      (by decide) (by decide)⟩

/- ----------------------------------------------------------------- -/
/- C10                                                               -/
/- ----------------------------------------------------------------- -/

/-- C10: with `max_iter = 0` the EM loop body never runs, and the
writeback overwrites the model with the all-zero rate vector, zero
epsilon and zero log-likelihood, returning 0 — so `lambda[i] > 0`
fails at the public interface in this edge case. -/
theorem MCEM_hcbn_zero_max_iter (uss : ℕ) (tol maxLam : ℚ) (N p : ℕ)
    (weights lambda0 : List ℚ) (eps0 : ℚ)
    (Edist : ℕ → List ℚ) (ETdiff : ℕ → List (List ℚ))
    (log : ℚ → ℚ) (dblEps : ℚ) :
    MCEM_hcbn 0 uss tol maxLam N p weights lambda0 eps0 Edist ETdiff log dblEps
      = { lambda := List.replicate p 0, eps := 0, llhood := 0, ret := 0 } :=
  rfl

/- ----------------------------------------------------------------- -/
/- C3: counterexample part                                           -/
/- ----------------------------------------------------------------- -/

/-- Counterexample for C3: with the forward proposal and `ε = 0`, the
importance weights are the raw powers `ε^d · (1-ε)^(p-d)` computed
without the `ε == 0` guard of `log_bernoulli_process`; when no sample
matches the observation exactly, all weights — and hence their sum —
are zero. Here `p = 1`, `L = 1`, the single draw has occurrence time 5
against sampling time 1, so the simulated genotype is `[false]` while
the observation is `[true]`. -/
theorem forward_eps0_zero_weight_sum :
    (importance_weight [true] 1 1 (fun _ => []) [0] 0 0 "forward" 0 false
      (fun x => x) (fun x => x) 0 [[5]] [1] [] ⟨[], [], []⟩).w.sum = 0 ∧
    (importance_weight [true] 1 1 (fun _ => []) [0] 0 0 "forward" 0 false
      (fun x => x) (fun x => x) 0 [[5]] [1] [] ⟨[], [], []⟩).dist = [1] := by
  constructor <;>
    norm_num [importance_weight, sample_genotypes, hamming_dist_mat, rowHamming,
      computeS, computeSFrom, stepS, maxParents, rowGet, fillMat, Function.update,
      List.range_succ, List.countP_cons]

/- ----------------------------------------------------------------- -/
/- C3: amended theorem                                               -/
/- ----------------------------------------------------------------- -/

/-- C3 (amended): for the rejection proposal the weight sum is always
positive — in the degenerate uniform fallback every weight is an
exponential of the Bernoulli log-density, otherwise every weight is
`Q/K > 0`. (The forward proposal has no such guarantee; see the
counterexample with `ε = 0`.) -/
theorem rejection_weight_sum_pos (g : List Bool) (L p : ℕ)
    (parents : ℕ → List ℕ) (order : List ℕ) (eps time : ℚ) (version : ℕ)
    (sta : Bool) (log exp : ℚ → ℚ) (dblEps : ℚ)
    (T_draws : List (List ℚ)) (Ts_draws : List ℚ) (idx_draws : List ℕ)
    (init : ImportanceRecord)
    (h0 : 0 ≤ eps) (h1 : eps ≤ 1) (hL : 0 < L) (hp : 0 < p)
    (hidx : L ≤ idx_draws.length) (hexp : ∀ x, 0 < exp x) :
    0 < (importance_weight g L p parents order eps time "rejection" version
      sta log exp dblEps T_draws Ts_draws idx_draws init).w.sum := by
  simp only [importance_weight, String.reduceEq, reduceIte, decide_eq_true_eq]
  by_cases hq : ((hamming_dist_mat (sample_genotypes (p * L) p parents order
      T_draws (if sta then List.replicate (p * L) time else Ts_draws)) g).map
      (fun d => eps ^ d * (1 - eps) ^ (p - d))).sum = 0
  · rw [if_pos hq]
    apply List.sum_pos
    · intro x hx
      obtain ⟨y, _, rfl⟩ := List.mem_map.1 hx
      exact hexp y
    · intro hnil
      have hlen := congrArg List.length hnil
      simp only [List.length_map, length_log_bernoulli_process, List.length_take,
        List.length_nil] at hlen
      omega
  · have hqnn : 0 ≤ ((hamming_dist_mat (sample_genotypes (p * L) p parents order
        T_draws (if sta then List.replicate (p * L) time else Ts_draws)) g).map
        (fun d => eps ^ d * (1 - eps) ^ (p - d))).sum := by
      apply List.sum_nonneg
      intro x hx
      obtain ⟨d, _, rfl⟩ := List.mem_map.1 hx
      exact mul_nonneg (pow_nonneg h0 d) (pow_nonneg (by linarith) (p - d))
    have hqpos := lt_of_le_of_ne hqnn (Ne.symm hq)
    simp only [if_neg hq, List.sum_replicate, nsmul_eq_mul,
      length_hamming_dist_mat, length_sample_genotypes]
    apply mul_pos (by exact_mod_cast hL)
    apply div_pos hqpos
    exact_mod_cast Nat.mul_pos hp hL

/-- Witness for C3's amended theorem: a single-node poset, `ε = 1/2`,
one pool candidate and one drawn index; `exp` instantiated to the
constant function 1. -/
theorem rejection_weight_sum_pos_witness :
    (0 : ℚ) ≤ 1 / 2 ∧ (1 : ℚ) / 2 ≤ 1 ∧ 0 < 1 ∧ 1 ≤ [0].length ∧
    0 < (importance_weight [true] 1 1 (fun _ => []) [0] (1 / 2) 0 "rejection"
      0 false (fun x => x) (fun _ => 1) 0 [[0]] [5] [0] ⟨[], [], []⟩).w.sum :=
  ⟨by norm_num, by norm_num, Nat.one_pos, by norm_num,
    rejection_weight_sum_pos [true] 1 1 (fun _ => []) [0] (1 / 2) 0 0 false
      (fun x => x) (fun _ => 1) 0 [[0]] [5] [0] ⟨[], [], []⟩
      (by norm_num) (by norm_num) Nat.one_pos Nat.one_pos (by norm_num)
      (fun x => one_pos)⟩

/- ----------------------------------------------------------------- -/
/- C4                                                                -/
/- ----------------------------------------------------------------- -/

/-- C4: the rejection proposal draws a pool of `K = p·L` candidates;
the returned distances and `Tdiff` rows are the pool rows selected by
the drawn indices; if the pool weights `q_l` all vanish the returned
weights are `exp(log_bernoulli(dist_l, ε, p))`, and otherwise every
returned weight equals `Q/K` with `Q` the pool-weight sum before
normalization. -/
theorem importance_weight_rejection_record (g : List Bool) (L p : ℕ)
    (parents : ℕ → List ℕ) (order : List ℕ) (eps time : ℚ) (version : ℕ)
    (sta : Bool) (log exp : ℚ → ℚ) (dblEps : ℚ)
    (T_draws : List (List ℚ)) (Ts_draws : List ℚ) (idx_draws : List ℕ)
    (init : ImportanceRecord) :
    (sample_genotypes (p * L) p parents order T_draws
        (if sta then List.replicate (p * L) time else Ts_draws)).length = p * L ∧
    (importance_weight g L p parents order eps time "rejection" version sta
        log exp dblEps T_draws Ts_draws idx_draws init).dist
      = (idx_draws.take L).map (fun i =>
          (hamming_dist_mat (sample_genotypes (p * L) p parents order T_draws
            (if sta then List.replicate (p * L) time else Ts_draws)) g).getD i 0) ∧
    (importance_weight g L p parents order eps time "rejection" version sta
        log exp dblEps T_draws Ts_draws idx_draws init).Tdiff
      = (idx_draws.take L).map (fun i => (fillMat T_draws (p * L) p).getD i []) ∧
    (importance_weight g L p parents order eps time "rejection" version sta
        log exp dblEps T_draws Ts_draws idx_draws init).w
      = (if ((hamming_dist_mat (sample_genotypes (p * L) p parents order T_draws
            (if sta then List.replicate (p * L) time else Ts_draws)) g).map
            (fun d => eps ^ d * (1 - eps) ^ (p - d))).sum = 0 then
          (log_bernoulli_process log dblEps
            ((importance_weight g L p parents order eps time "rejection" version
              sta log exp dblEps T_draws Ts_draws idx_draws init).dist.map
              (fun d : ℕ => (d : ℚ))) eps p).map exp
        else
          List.replicate L
            ((((hamming_dist_mat (sample_genotypes (p * L) p parents order T_draws
              (if sta then List.replicate (p * L) time else Ts_draws)) g).map
              (fun d => eps ^ d * (1 - eps) ^ (p - d))).sum) / ((p * L : ℕ) : ℚ))) := by
  refine ⟨length_sample_genotypes _ _ _ _ _ _, rfl, rfl, ?_⟩
  simp only [importance_weight, String.reduceEq, reduceIte, decide_eq_true_eq]
  by_cases hq : ((hamming_dist_mat (sample_genotypes (p * L) p parents order
      T_draws (if sta then List.replicate (p * L) time else Ts_draws)) g).map
      (fun d => eps ^ d * (1 - eps) ^ (p - d))).sum = 0
  · rw [if_pos hq, if_pos hq]
  · simp only [if_neg hq]
    rw [length_hamming_dist_mat, length_sample_genotypes]

/- ----------------------------------------------------------------- -/
/- C9                                                                -/
/- ----------------------------------------------------------------- -/

/-- C9: the forward proposal runs the simulator (with the sampling
times fixed to the supplied `time` when they are available), records
for each `l < L` the Hamming distance between the `l`-th simulated
genotype and the observed genotype, and returns the weights
`w_l = ε^{d_l} · (1-ε)^{p-d_l}`. -/
theorem importance_weight_forward_record (g : List Bool) (L p : ℕ)
    (parents : ℕ → List ℕ) (order : List ℕ) (eps time : ℚ) (version : ℕ)
    (sta : Bool) (log exp : ℚ → ℚ) (dblEps : ℚ)
    (T_draws : List (List ℚ)) (Ts_draws : List ℚ) (idx_draws : List ℕ)
    (init : ImportanceRecord) :
    (importance_weight g L p parents order eps time "forward" version sta
        log exp dblEps T_draws Ts_draws idx_draws init).dist
      = hamming_dist_mat (sample_genotypes L p parents order T_draws
          (if sta then List.replicate L time else Ts_draws)) g ∧
    (importance_weight g L p parents order eps time "forward" version sta
        log exp dblEps T_draws Ts_draws idx_draws init).w
      = (importance_weight g L p parents order eps time "forward" version sta
          log exp dblEps T_draws Ts_draws idx_draws init).dist.map
          (fun d => eps ^ d * (1 - eps) ^ (p - d)) ∧
    (importance_weight g L p parents order eps time "forward" version sta
        log exp dblEps T_draws Ts_draws idx_draws init).Tdiff
      = fillMat T_draws L p ∧
    ∀ l, l < L →
      (importance_weight g L p parents order eps time "forward" version sta
          log exp dblEps T_draws Ts_draws idx_draws init).dist.getD l 0
        = rowHamming ((sample_genotypes L p parents order T_draws
            (if sta then List.replicate L time else Ts_draws)).getD l []) g ∧
      (importance_weight g L p parents order eps time "forward" version sta
          log exp dblEps T_draws Ts_draws idx_draws init).w.getD l 0
        = eps ^ ((importance_weight g L p parents order eps time "forward"
            version sta log exp dblEps T_draws Ts_draws idx_draws init).dist.getD l 0)
          * (1 - eps) ^ (p - (importance_weight g L p parents order eps time
            "forward" version sta log exp dblEps T_draws Ts_draws idx_draws
            init).dist.getD l 0) := by
  refine ⟨rfl, rfl, rfl, ?_⟩
  intro l hl
  constructor
  · show (hamming_dist_mat (sample_genotypes L p parents order T_draws
      (if sta then List.replicate L time else Ts_draws)) g).getD l 0 = _
    unfold hamming_dist_mat
    rw [getD_map_of_lt _ _ _ (by rw [length_sample_genotypes]; exact hl) []]
  · show ((hamming_dist_mat (sample_genotypes L p parents order T_draws
      (if sta then List.replicate L time else Ts_draws)) g).map
      (fun d => eps ^ d * (1 - eps) ^ (p - d))).getD l 0 = _
    rw [getD_map_of_lt _ _ _
      (by rw [length_hamming_dist_mat, length_sample_genotypes]; exact hl) 0]
    rfl

/-- Witness for C9: one event, one sample, occurrence time 0 against
sampling time 5, observation `[true]`. -/
theorem importance_weight_forward_record_witness :
    0 < 1 ∧
    (importance_weight [true] 1 1 (fun _ => []) [0] (1 / 2) 0 "forward" 0
        false (fun x => x) (fun x => x) 0 [[0]] [5] [] ⟨[], [], []⟩).dist.getD 0 0
      = rowHamming ((sample_genotypes 1 1 (fun _ => []) [0] [[0]]
          (if false then List.replicate 1 0 else [5])).getD 0 []) [true] :=
  ⟨Nat.one_pos,
    ((importance_weight_forward_record [true] 1 1 (fun _ => []) [0] (1 / 2) 0 0
      false (fun x => x) (fun x => x) 0 [[0]] [5] [] ⟨[], [], []⟩).2.2.2 0
      Nat.one_pos).1⟩

/- ----------------------------------------------------------------- -/
/- C6                                                                -/
/- ----------------------------------------------------------------- -/

theorem dotProd_nonneg (a b : List ℚ) (ha : ∀ x ∈ a, 0 ≤ x)
    (hb : ∀ x ∈ b, 0 ≤ x) : 0 ≤ dotProd a b := by
  induction a generalizing b with
  | nil => cases b <;> simp [dotProd]
  | cons x xs ih =>
    cases b with
    | nil => simp [dotProd]
    | cons y ys =>
      simp only [dotProd]
      have hx := ha x (List.mem_cons_self x xs)
      have hy := hb y (List.mem_cons_self y ys)
      have hrest := ih ys (fun z hz => ha z (List.mem_cons_of_mem x hz))
        (fun z hz => hb z (List.mem_cons_of_mem y hz))
      positivity

theorem getD_nonneg_of_forall (r : List ℚ) (j : ℕ)
    (h : ∀ x ∈ r, 0 ≤ x) : 0 ≤ r.getD j 0 := by
  by_cases hj : j < r.length
  · rw [List.getD_eq_getElem _ _ hj]
    exact h _ (List.getElem_mem hj)
  · rw [List.getD_eq_default _ _ (by omega)]

theorem set_lambda_clamped_bounds (s W maxLam : ℚ) (hs : 0 ≤ s)
    (hW : 0 < W) (hml : 0 < maxLam) :
    0 < set_lambda_clamped s W maxLam ∧ set_lambda_clamped s W maxLam ≤ maxLam := by
  unfold set_lambda_clamped
  by_cases h : s = 0
  · rw [if_pos h]
    exact ⟨hml, le_refl _⟩
  · rw [if_neg h]
    have hspos : 0 < s := lt_of_le_of_ne hs (Ne.symm h)
    exact ⟨lt_min (div_pos hW hspos) hml, min_le_right _ _⟩

theorem mstep_lambda_getD (weights : List ℚ) (ET : List (List ℚ))
    (W maxLam : ℚ) (p j : ℕ) (hj : j < p) :
    (mstep_lambda weights ET W maxLam p).getD j 0
      = set_lambda_clamped (dotProd weights (ET.map (fun r => r.getD j 0)))
          W maxLam := by
  unfold mstep_lambda
  rw [getD_map_of_lt _ _ _ (by simpa using hj) 0]
  congr 1
  rw [List.getD_eq_getElem _ _ (by simpa using hj), List.getElem_range]

/-- The model parameters after an `emIter` that did not take the
`break`: they are exactly the M-step updates of that iteration. -/
theorem emIter_not_broke_params (max_iter uss : ℕ) (tol maxLam : ℚ)
    (N p : ℕ) (weights : List ℚ) (Edist : ℕ → List ℚ)
    (ETdiff : ℕ → List (List ℚ)) (log : ℚ → ℚ) (dblEps : ℚ) (iter : ℕ)
    (s : EMState)
    (hnb : (emIter max_iter uss tol maxLam N p weights Edist ETdiff log dblEps
      iter s).broke = false) :
    (emIter max_iter uss tol maxLam N p weights Edist ETdiff log dblEps iter
        s).eps = mstep_epsilon (Edist iter) N p ∧
    (emIter max_iter uss tol maxLam N p weights Edist ETdiff log dblEps iter
        s).lambda = mstep_lambda weights (ETdiff iter) weights.sum maxLam p := by
  by_cases hb : s.broke = true
  · exfalso
    simp only [emIter, if_pos hb] at hnb
    rw [hnb] at hb
    exact Bool.false_ne_true hb
  · by_cases hb1 : (if iter = s.boundary then windowUpdate uss tol p s else s).broke = true
    · exfalso
      simp only [emIter, if_neg hb, if_pos hb1] at hnb
      rw [hnb] at hb1
      exact Bool.false_ne_true hb1
    · simp only [emIter, if_neg hb, if_neg hb1]
      by_cases hlast : iter + 1 = max_iter
      · rw [if_pos hlast]
        exact ⟨rfl, rfl⟩
      · rw [if_neg hlast]
        exact ⟨rfl, rfl⟩

/-- C6: after an M-step of `MCEM_hcbn` (an `emIter` that completed
without taking the `break`), with E-step inputs that are non-negative
and — as every importance-sampling expectation of Hamming distances is
— bounded by `p`, the updated parameters satisfy
`ε = Σ E_dist / (N·p)`, `0 ≤ ε ≤ 1`, and for every event `j < p` the
rate is the clamped `W/s_j` with `0 < λ_j ≤ max_lambda`. -/
theorem mstep_parameter_bounds (max_iter uss : ℕ) (tol maxLam : ℚ)
    (N p : ℕ) (weights : List ℚ) (Edist : ℕ → List ℚ)
    (ETdiff : ℕ → List (List ℚ)) (log : ℚ → ℚ) (dblEps : ℚ) (iter : ℕ)
    (s : EMState)
    (hlen : (Edist iter).length = N)
    (hE : ∀ x ∈ Edist iter, 0 ≤ x ∧ x ≤ (p : ℚ))
    (hw : ∀ x ∈ weights, 0 ≤ x)
    (hT : ∀ r ∈ ETdiff iter, ∀ x ∈ r, 0 ≤ x)
    (hN : 0 < N) (hp : 0 < p) (hW : 0 < weights.sum) (hml : 0 < maxLam)
    (hnb : (emIter max_iter uss tol maxLam N p weights Edist ETdiff log dblEps
      iter s).broke = false) :
    (emIter max_iter uss tol maxLam N p weights Edist ETdiff log dblEps iter
        s).eps = (Edist iter).sum / ((N : ℚ) * (p : ℚ)) ∧
    0 ≤ (emIter max_iter uss tol maxLam N p weights Edist ETdiff log dblEps
        iter s).eps ∧
    (emIter max_iter uss tol maxLam N p weights Edist ETdiff log dblEps iter
        s).eps ≤ 1 ∧
    ∀ j, j < p →
      (emIter max_iter uss tol maxLam N p weights Edist ETdiff log dblEps iter
          s).lambda.getD j 0
        = set_lambda_clamped
            (dotProd weights ((ETdiff iter).map (fun r => r.getD j 0)))
            weights.sum maxLam ∧
      0 < (emIter max_iter uss tol maxLam N p weights Edist ETdiff log dblEps
          iter s).lambda.getD j 0 ∧
      (emIter max_iter uss tol maxLam N p weights Edist ETdiff log dblEps iter
          s).lambda.getD j 0 ≤ maxLam := by
  obtain ⟨heps, hlam⟩ := emIter_not_broke_params max_iter uss tol maxLam N p
    weights Edist ETdiff log dblEps iter s hnb
  have hNp : (0 : ℚ) < (N : ℚ) * (p : ℚ) := by
    have : (0 : ℕ) < N * p := Nat.mul_pos hN hp
    exact_mod_cast this
  refine ⟨by rw [heps]; rfl, ?_, ?_, ?_⟩
  · rw [heps]
    unfold mstep_epsilon
    apply div_nonneg _ (le_of_lt hNp)
    exact List.sum_nonneg (fun x hx => (hE x hx).1)
  · rw [heps]
    unfold mstep_epsilon
    rw [div_le_one hNp]
    have hle := List.sum_le_card_nsmul (Edist iter) ((p : ℚ))
      (fun x hx => (hE x hx).2)
    rw [hlen] at hle
    calc (Edist iter).sum ≤ N • (p : ℚ) := hle
    _ = (N : ℚ) * (p : ℚ) := by rw [nsmul_eq_mul]
  · intro j hj
    have hs : 0 ≤ dotProd weights ((ETdiff iter).map (fun r => r.getD j 0)) := by
      apply dotProd_nonneg _ _ hw
      intro x hx
      obtain ⟨r, hr, rfl⟩ := List.mem_map.1 hx
      exact getD_nonneg_of_forall r j (hT r hr)
    obtain ⟨hpos, hle⟩ := set_lambda_clamped_bounds _ weights.sum maxLam hs hW hml
    rw [hlam, mstep_lambda_getD _ _ _ _ _ _ hj]
    exact ⟨rfl, hpos, hle⟩

/-- Witness for C6: one observation, one event, unit weight,
`E_dist = [1]`, `E_Tdiff = [[2]]`, `max_lambda = 10`, at iteration 0
of a 2-iteration run (boundary at 20, so no window block fires). -/
theorem mstep_parameter_bounds_witness :
    ((fun _ : ℕ => [(1 : ℚ)]) 0).length = 1 ∧
    (0 : ℚ) < [(1 : ℚ)].sum ∧ (0 : ℚ) < 10 ∧
    ((emIter 2 20 0 10 1 1 [1] (fun _ => [(1 : ℚ)]) (fun _ => [[(2 : ℚ)]])
        (fun x => x) 0 0 (mcemInitState 1 20 [1] 0)).eps
      = ([(1 : ℚ)]).sum / ((1 : ℚ) * (1 : ℚ)) ∧
    0 ≤ (emIter 2 20 0 10 1 1 [1] (fun _ => [(1 : ℚ)]) (fun _ => [[(2 : ℚ)]])
        (fun x => x) 0 0 (mcemInitState 1 20 [1] 0)).eps ∧
    (emIter 2 20 0 10 1 1 [1] (fun _ => [(1 : ℚ)]) (fun _ => [[(2 : ℚ)]])
        (fun x => x) 0 0 (mcemInitState 1 20 [1] 0)).eps ≤ 1 ∧
    (0 < (emIter 2 20 0 10 1 1 [1] (fun _ => [(1 : ℚ)]) (fun _ => [[(2 : ℚ)]])
        (fun x => x) 0 0 (mcemInitState 1 20 [1] 0)).lambda.getD 0 0 ∧
      (emIter 2 20 0 10 1 1 [1] (fun _ => [(1 : ℚ)]) (fun _ => [[(2 : ℚ)]])
        (fun x => x) 0 0 (mcemInitState 1 20 [1] 0)).lambda.getD 0 0 ≤ 10)) := by
  have hnb : (emIter 2 20 0 10 1 1 [1] (fun _ => [(1 : ℚ)])
      (fun _ => [[(2 : ℚ)]]) (fun x => x) 0 0
      (mcemInitState 1 20 [1] 0)).broke = false := by
    simp [emIter, mcemInitState]
  have h := mstep_parameter_bounds 2 20 0 10 1 1 [1] (fun _ => [(1 : ℚ)])
    (fun _ => [[(2 : ℚ)]]) (fun x => x) 0 0 (mcemInitState 1 20 [1] 0)
    rfl (by norm_num) (by norm_num) (by norm_num)
    Nat.one_pos Nat.one_pos (by norm_num) (by norm_num) hnb
  obtain ⟨h1, h2, h3, h4⟩ := h
  obtain ⟨_, h5, h6⟩ := h4 0 Nat.one_pos
  exact ⟨rfl, by norm_num, by norm_num, h1, h2, h3, h5, h6⟩

/- ----------------------------------------------------------------- -/
/- C7                                                                -/
/- ----------------------------------------------------------------- -/

theorem getD_map_range {β : Type} (f : ℕ → β) (N i : ℕ) (h : i < N) (d : β) :
    ((List.range N).map f).getD i d = f i := by
  rw [getD_map_of_lt _ _ _ (by simpa using h) 0]
  congr 1
  rw [List.getD_eq_getElem _ _ (by simpa using h), List.getElem_range]

theorem rowGet_nonneg (T : List (List ℚ)) (hT : ∀ r ∈ T, ∀ x ∈ r, 0 ≤ x)
    (i j : ℕ) : 0 ≤ rowGet T i j := by
  unfold rowGet
  apply getD_nonneg_of_forall
  intro x hx
  by_cases hi : i < T.length
  · exact hT _ (by rw [List.getD_eq_getElem _ _ hi]; exact List.getElem_mem hi) x hx
  · rw [List.getD_eq_default _ _ (by omega)] at hx
    exact absurd hx (List.not_mem_nil x)

theorem computeSFrom_cons (parents : ℕ → List ℕ) (T : ℕ → ℚ) (S0 : ℕ → ℚ)
    (x : ℕ) (l : List ℕ) :
    computeSFrom parents T S0 (x :: l)
      = computeSFrom parents T (stepS parents T S0 x) l := rfl

theorem computeSFrom_append (parents : ℕ → List ℕ) (T : ℕ → ℚ) (S0 : ℕ → ℚ)
    (l₁ l₂ : List ℕ) :
    computeSFrom parents T S0 (l₁ ++ l₂)
      = computeSFrom parents T (computeSFrom parents T S0 l₁) l₂ := by
  unfold computeSFrom
  rw [List.foldl_append]

theorem computeSFrom_not_mem (parents : ℕ → List ℕ) (T : ℕ → ℚ)
    (S0 : ℕ → ℚ) (l : List ℕ) (u : ℕ) (hu : u ∉ l) :
    computeSFrom parents T S0 l u = S0 u := by
  induction l generalizing S0 with
  | nil => rfl
  | cons x xs ih =>
    rw [computeSFrom_cons, ih _ (fun hmem => hu (List.mem_cons_of_mem x hmem))]
    unfold stepS
    have hne : u ≠ x := fun h => hu (by rw [h]; exact List.mem_cons_self x xs)
    exact Function.update_noteq hne _ _

theorem foldl_max_init_le (S : ℕ → ℚ) (l : List ℕ) (a : ℚ) :
    a ≤ l.foldl (fun m u => max m (S u)) a := by
  induction l generalizing a with
  | nil => exact le_refl a
  | cons x xs ih =>
    calc a ≤ max a (S x) := le_max_left _ _
    _ ≤ xs.foldl (fun m u => max m (S u)) (max a (S x)) := ih _

theorem le_foldl_max_of_mem (S : ℕ → ℚ) (l : List ℕ) :
    ∀ (a : ℚ) (x : ℕ), x ∈ l → S x ≤ l.foldl (fun m u => max m (S u)) a := by
  induction l with
  | nil => intro a x hx; exact absurd hx (List.not_mem_nil x)
  | cons y ys ih =>
    intro a x hx
    rw [List.foldl_cons]
    rcases List.mem_cons.1 hx with h | h
    · subst h
      calc S x ≤ max a (S x) := le_max_right _ _
      _ ≤ ys.foldl (fun m u => max m (S u)) (max a (S x)) :=
        foldl_max_init_le _ _ _
    · exact ih (max a (S y)) x h

theorem le_maxParents (S : ℕ → ℚ) (l : List ℕ) (x : ℕ) (hx : x ∈ l) :
    S x ≤ maxParents S l :=
  le_foldl_max_of_mem S l 0 x hx

theorem maxParents_nonneg (S : ℕ → ℚ) (l : List ℕ) : 0 ≤ maxParents S l :=
  foldl_max_init_le S l 0

theorem foldl_max_congr (S T : ℕ → ℚ) (l : List ℕ) :
    ∀ a : ℚ, (∀ u ∈ l, S u = T u) →
      l.foldl (fun m u => max m (S u)) a = l.foldl (fun m u => max m (T u)) a := by
  induction l with
  | nil => intro a _; rfl
  | cons x xs ih =>
    intro a h
    rw [List.foldl_cons, List.foldl_cons, h x (List.mem_cons_self x xs)]
    exact ih _ (fun u hu => h u (List.mem_cons_of_mem x hu))

theorem maxParents_congr (S T : ℕ → ℚ) (l : List ℕ)
    (h : ∀ u ∈ l, S u = T u) : maxParents S l = maxParents T l :=
  foldl_max_congr S T l 0 h

/-- C7: for every processing order that visits each node once with all
parents first (the contract of `Model::topological_sort` on an acyclic
poset) and non-negative exponential draws, the occurrence times
computed by `sample_genotypes` satisfy the fixed-point recurrence
`S[i,v] = T_events[i,v] + max over parents u of S[i,u]` (empty max 0),
are monotone along every edge `u → v`, and the emitted genotype bit is
`obs[i,v] = (S[i,v] ≤ T_sampling[i])`. -/
theorem sample_genotypes_topological (N p : ℕ) (parents : ℕ → List ℕ)
    (order : List ℕ) (T : List (List ℚ)) (Ts : List ℚ)
    (hnd : order.Nodup)
    (hb : ∀ l₁ v l₂, order = l₁ ++ v :: l₂ → ∀ u ∈ parents v, u ∈ l₁)
    (hT : ∀ r ∈ T, ∀ x ∈ r, 0 ≤ x) :
    ∀ i, i < N → ∀ v ∈ order,
      (computeS parents (fun j => rowGet T i j) order v
        = rowGet T i v
          + maxParents (computeS parents (fun j => rowGet T i j) order)
              (parents v)) ∧
      (∀ u ∈ parents v,
        computeS parents (fun j => rowGet T i j) order u
          ≤ computeS parents (fun j => rowGet T i j) order v) ∧
      (v < p →
        ((sample_genotypes N p parents order T Ts).getD i []).getD v false
          = decide (computeS parents (fun j => rowGet T i j) order v
              ≤ Ts.getD i 0)) := by
  intro i hi v hv
  obtain ⟨l₁, l₂, hsplit⟩ := List.append_of_mem hv
  have hnd' := hnd
  rw [hsplit, List.nodup_append] at hnd'
  have hvl₂ : v ∉ l₂ := (List.nodup_cons.1 hnd'.2.1).1
  have hval : computeS parents (fun j => rowGet T i j) order v
      = rowGet T i v
        + maxParents
            (computeSFrom parents (fun j => rowGet T i j) (fun _ => 0) l₁)
            (parents v) := by
    unfold computeS
    rw [hsplit, computeSFrom_append, computeSFrom_cons,
      computeSFrom_not_mem _ _ _ _ _ hvl₂]
    unfold stepS
    rw [Function.update_same]
  have hparfin : ∀ u ∈ parents v,
      computeS parents (fun j => rowGet T i j) order u
        = computeSFrom parents (fun j => rowGet T i j) (fun _ => 0) l₁ u := by
    intro u hu
    have hul₁ : u ∈ l₁ := hb l₁ v l₂ hsplit u hu
    have hunotin : u ∉ v :: l₂ := fun hmem => hnd'.2.2 hul₁ hmem
    unfold computeS
    rw [hsplit, computeSFrom_append, computeSFrom_cons,
      computeSFrom_not_mem _ _ _ _ _
        (fun h2 => hunotin (List.mem_cons_of_mem v h2))]
    unfold stepS
    have hne : u ≠ v := fun h => hunotin (by rw [h]; exact List.mem_cons_self v l₂)
    rw [Function.update_noteq hne]
  refine ⟨?_, ?_, ?_⟩
  · rw [hval]
    congr 1
    exact maxParents_congr _ _ _ (fun u hu => (hparfin u hu).symm)
  · intro u hu
    rw [hval, hparfin u hu]
    have h1 := le_maxParents
      (computeSFrom parents (fun j => rowGet T i j) (fun _ => 0) l₁)
      (parents v) u hu
    have h2 := rowGet_nonneg T hT i v
    linarith
  · intro hvp
    unfold sample_genotypes
    rw [getD_map_range _ _ _ hi, getD_map_range _ _ _ hvp]
    have hc : order.contains v = true := List.elem_eq_true_of_mem hv
    rw [hc, Bool.true_and]

/-- Witness for C7: a single node with no parents, draw 1, sampling
time 4, instantiated at sample 0 and node 0. -/
theorem sample_genotypes_topological_witness :
    0 < 1 ∧
    (computeS (fun _ => []) (fun j => rowGet [[(1 : ℚ)]] 0 j) [0] 0
      = rowGet [[(1 : ℚ)]] 0 0
        + maxParents (computeS (fun _ => []) (fun j => rowGet [[(1 : ℚ)]] 0 j) [0])
            ((fun _ : ℕ => ([] : List ℕ)) 0)) ∧
    ((sample_genotypes 1 1 (fun _ => []) [0] [[(1 : ℚ)]] [4]).getD 0 []).getD 0 false
      = decide (computeS (fun _ => []) (fun j => rowGet [[(1 : ℚ)]] 0 j) [0] 0
          ≤ [(4 : ℚ)].getD 0 0) := by
  have h := sample_genotypes_topological 1 1 (fun _ => []) [0] [[(1 : ℚ)]] [4]
    (List.nodup_singleton 0)
    (fun _ _ _ _ u hu => absurd hu (List.not_mem_nil u))
    (by norm_num) 0 Nat.one_pos 0 (List.mem_singleton.2 rfl)
  exact ⟨Nat.one_pos, h.1, h.2.2 Nat.one_pos⟩

/- ----------------------------------------------------------------- -/
/- C5                                                                -/
/- ----------------------------------------------------------------- -/

/-- The wrapped `unsigned int` count `max_iter - boundary + uss` equals
the mathematical value whenever the boundary does not exceed
`max_iter + uss` and no genuine 32-bit overflow occurs. -/
theorem numIterFinal_eq (mi b uss : ℕ) (hble : b ≤ mi + uss)
    (hlt : mi + uss < U32) : numIterFinal mi b uss = mi + uss - b := by
  unfold numIterFinal U32
  unfold U32 at hlt
  omega

/-- Explicit description of the last loop iteration (`iter + 1 =
max_iter`) when neither the entering state nor the window-boundary
block takes the `break`: the M-step runs, the accumulators absorb the
new parameters and are divided by the wrapped iteration count. -/
theorem emIter_last (max_iter uss : ℕ) (tol maxLam : ℚ) (N p : ℕ)
    (weights : List ℚ) (Edist : ℕ → List ℚ) (ETdiff : ℕ → List (List ℚ))
    (log : ℚ → ℚ) (dblEps : ℚ) (iter : ℕ) (s : EMState)
    (hb : s.broke = false)
    (hb1 : (if iter = s.boundary then windowUpdate uss tol p s else s).broke
      = false)
    (hlast : iter + 1 = max_iter) :
    emIter max_iter uss tol maxLam N p weights Edist ETdiff log dblEps iter s
      = { boundary :=
            (if iter = s.boundary then windowUpdate uss tol p s else s).boundary,
          avg_lambda :=
            (if iter = s.boundary then windowUpdate uss tol p s else s).avg_lambda,
          avg_eps :=
            (if iter = s.boundary then windowUpdate uss tol p s else s).avg_eps,
          cur_lambda :=
            (((if iter = s.boundary then windowUpdate uss tol p s else s).cur_lambda.zip
                (mstep_lambda weights (ETdiff iter) weights.sum maxLam p)).map
                (fun q => q.1 + q.2)).map
              (fun x => x / ((numIterFinal max_iter
                (if iter = s.boundary then windowUpdate uss tol p s else s).boundary
                uss : ℕ) : ℚ)),
          cur_eps :=
            ((if iter = s.boundary then windowUpdate uss tol p s else s).cur_eps
                + mstep_epsilon (Edist iter) N p)
              / ((numIterFinal max_iter
                (if iter = s.boundary then windowUpdate uss tol p s else s).boundary
                uss : ℕ) : ℚ),
          cur_llhood :=
            ((if iter = s.boundary then windowUpdate uss tol p s else s).cur_llhood
                + complete_log_likelihood log dblEps
                    (mstep_lambda weights (ETdiff iter) weights.sum maxLam p)
                    (mstep_epsilon (Edist iter) N p) (ETdiff iter) (Edist iter)
                    weights.sum)
              / ((numIterFinal max_iter
                (if iter = s.boundary then windowUpdate uss tol p s else s).boundary
                uss : ℕ) : ℚ),
          lambda := mstep_lambda weights (ETdiff iter) weights.sum maxLam p,
          eps := mstep_epsilon (Edist iter) N p,
          tol_comparison :=
            (if iter = s.boundary then windowUpdate uss tol p s else s).tol_comparison,
          broke :=
            (if iter = s.boundary then windowUpdate uss tol p s else s).broke } := by
  simp only [emIter]
  rw [if_neg (by rw [hb]; exact Bool.false_ne_true)]
  rw [if_neg (by rw [hb1]; exact Bool.false_ne_true)]
  rw [if_pos hlast]

/-- C5: when the outer loop exhausts `max_iter` without an early
convergence break, the partial window accumulators (including the last
M-step contribution) are divided by
`max_iter - next_window_boundary + update_step_size`, and on exit the
model's `lambda`, `epsilon` and `llhood` are overwritten with these
window averages and the averaged log-likelihood is returned. -/
theorem MCEM_hcbn_final_window_average (max_iter uss : ℕ) (tol maxLam : ℚ)
    (N p : ℕ) (weights lambda0 : List ℚ) (eps0 : ℚ)
    (Edist : ℕ → List ℚ) (ETdiff : ℕ → List (List ℚ))
    (log : ℚ → ℚ) (dblEps : ℚ)
    (hmax : 0 < max_iter)
    (hpre : (mcemPreState max_iter uss tol maxLam N p weights lambda0 eps0
      Edist ETdiff log dblEps).broke = false)
    (hlast : (mcemLastEntryState max_iter uss tol maxLam N p weights lambda0
      eps0 Edist ETdiff log dblEps).broke = false)
    (hrange : (mcemLastEntryState max_iter uss tol maxLam N p weights lambda0
      eps0 Edist ETdiff log dblEps).boundary ≤ max_iter + uss)
    (hsize : max_iter + uss < U32) :
    MCEM_hcbn max_iter uss tol maxLam N p weights lambda0 eps0 Edist ETdiff
        log dblEps
      = { lambda :=
            (((mcemLastEntryState max_iter uss tol maxLam N p weights lambda0
                eps0 Edist ETdiff log dblEps).cur_lambda.zip
                (mstep_lambda weights (ETdiff (max_iter - 1)) weights.sum maxLam
                  p)).map (fun q => q.1 + q.2)).map
              (fun x => x / ((max_iter + uss
                - (mcemLastEntryState max_iter uss tol maxLam N p weights
                    lambda0 eps0 Edist ETdiff log dblEps).boundary : ℕ) : ℚ)),
          eps :=
            ((mcemLastEntryState max_iter uss tol maxLam N p weights lambda0
                eps0 Edist ETdiff log dblEps).cur_eps
              + mstep_epsilon (Edist (max_iter - 1)) N p)
              / ((max_iter + uss
                - (mcemLastEntryState max_iter uss tol maxLam N p weights
                    lambda0 eps0 Edist ETdiff log dblEps).boundary : ℕ) : ℚ),
          llhood :=
            ((mcemLastEntryState max_iter uss tol maxLam N p weights lambda0
                eps0 Edist ETdiff log dblEps).cur_llhood
              + complete_log_likelihood log dblEps
                  (mstep_lambda weights (ETdiff (max_iter - 1)) weights.sum
                    maxLam p)
                  (mstep_epsilon (Edist (max_iter - 1)) N p)
                  (ETdiff (max_iter - 1)) (Edist (max_iter - 1)) weights.sum)
              / ((max_iter + uss
                - (mcemLastEntryState max_iter uss tol maxLam N p weights
                    lambda0 eps0 Edist ETdiff log dblEps).boundary : ℕ) : ℚ),
          ret :=
            ((mcemLastEntryState max_iter uss tol maxLam N p weights lambda0
                eps0 Edist ETdiff log dblEps).cur_llhood
              + complete_log_likelihood log dblEps
                  (mstep_lambda weights (ETdiff (max_iter - 1)) weights.sum
                    maxLam p)
                  (mstep_epsilon (Edist (max_iter - 1)) N p)
                  (ETdiff (max_iter - 1)) (Edist (max_iter - 1)) weights.sum)
              / ((max_iter + uss
                - (mcemLastEntryState max_iter uss tol maxLam N p weights
                    lambda0 eps0 Edist ETdiff log dblEps).boundary : ℕ) : ℚ) } := by
  have hiter : max_iter - 1 + 1 = max_iter := Nat.succ_pred_eq_of_pos hmax
  have hsplit : List.range max_iter = List.range (max_iter - 1) ++ [max_iter - 1] := by
    conv_lhs => rw [← hiter]
    rw [List.range_succ]
  have hlast' : (if max_iter - 1 = (mcemPreState max_iter uss tol maxLam N p
      weights lambda0 eps0 Edist ETdiff log dblEps).boundary then
        windowUpdate uss tol p (mcemPreState max_iter uss tol maxLam N p
          weights lambda0 eps0 Edist ETdiff log dblEps)
      else mcemPreState max_iter uss tol maxLam N p weights lambda0 eps0
        Edist ETdiff log dblEps).broke = false := hlast
  have hrange' : (if max_iter - 1 = (mcemPreState max_iter uss tol maxLam N p
      weights lambda0 eps0 Edist ETdiff log dblEps).boundary then
        windowUpdate uss tol p (mcemPreState max_iter uss tol maxLam N p
          weights lambda0 eps0 Edist ETdiff log dblEps)
      else mcemPreState max_iter uss tol maxLam N p weights lambda0 eps0
        Edist ETdiff log dblEps).boundary ≤ max_iter + uss := hrange
  simp only [MCEM_hcbn]
  rw [hsplit, List.foldl_append, List.foldl_cons, List.foldl_nil]
  rw [show (List.range (max_iter - 1)).foldl
      (fun s i => emIter max_iter uss tol maxLam N p weights Edist ETdiff log
        dblEps i s) (mcemInitState p uss lambda0 eps0)
      = mcemPreState max_iter uss tol maxLam N p weights lambda0 eps0 Edist
          ETdiff log dblEps from rfl]
  rw [emIter_last max_iter uss tol maxLam N p weights Edist ETdiff log dblEps
    (max_iter - 1) _ hpre hlast' hiter]
  rw [numIterFinal_eq _ _ _ hrange' hsize]
  rfl

/-- Witness for C5: a single iteration (`max_iter = 1`) with window
length 20, one observation and one event; the loop exits by exhausting
`max_iter` and the accumulators are divided by `1 + 20 - 20 = 1`. -/
theorem MCEM_hcbn_final_window_average_witness :
    0 < 1 ∧
    (mcemPreState 1 20 0 10 1 1 [1] [1] 0 (fun _ => [0]) (fun _ => [[1]])
      (fun x => x) 0).broke = false ∧
    (mcemLastEntryState 1 20 0 10 1 1 [1] [1] 0 (fun _ => [0])
      (fun _ => [[1]]) (fun x => x) 0).broke = false ∧
    (mcemLastEntryState 1 20 0 10 1 1 [1] [1] 0 (fun _ => [0])
      (fun _ => [[1]]) (fun x => x) 0).boundary ≤ 1 + 20 ∧
    1 + 20 < U32 ∧
    MCEM_hcbn 1 20 0 10 1 1 [1] [1] 0 (fun _ => [0]) (fun _ => [[1]])
        (fun x => x) 0
      = { lambda :=
            (((mcemLastEntryState 1 20 0 10 1 1 [1] [1] 0 (fun _ => [0])
                (fun _ => [[1]]) (fun x => x) 0).cur_lambda.zip
                (mstep_lambda [1] ((fun _ : ℕ => [[(1 : ℚ)]]) (1 - 1))
                  ([(1 : ℚ)]).sum 10 1)).map (fun q => q.1 + q.2)).map
              (fun x => x / ((1 + 20
                - (mcemLastEntryState 1 20 0 10 1 1 [1] [1] 0 (fun _ => [0])
                    (fun _ => [[1]]) (fun x => x) 0).boundary : ℕ) : ℚ)),
          eps :=
            ((mcemLastEntryState 1 20 0 10 1 1 [1] [1] 0 (fun _ => [0])
                (fun _ => [[1]]) (fun x => x) 0).cur_eps
              + mstep_epsilon ((fun _ : ℕ => [(0 : ℚ)]) (1 - 1)) 1 1)
              / ((1 + 20
                - (mcemLastEntryState 1 20 0 10 1 1 [1] [1] 0 (fun _ => [0])
                    (fun _ => [[1]]) (fun x => x) 0).boundary : ℕ) : ℚ),
          llhood :=
            ((mcemLastEntryState 1 20 0 10 1 1 [1] [1] 0 (fun _ => [0])
                (fun _ => [[1]]) (fun x => x) 0).cur_llhood
              + complete_log_likelihood (fun x => x) 0
                  (mstep_lambda [1] ((fun _ : ℕ => [[(1 : ℚ)]]) (1 - 1))
                    ([(1 : ℚ)]).sum 10 1)
                  (mstep_epsilon ((fun _ : ℕ => [(0 : ℚ)]) (1 - 1)) 1 1)
                  ((fun _ : ℕ => [[(1 : ℚ)]]) (1 - 1))
                  ((fun _ : ℕ => [(0 : ℚ)]) (1 - 1)) ([(1 : ℚ)]).sum)
              / ((1 + 20
                - (mcemLastEntryState 1 20 0 10 1 1 [1] [1] 0 (fun _ => [0])
                    (fun _ => [[1]]) (fun x => x) 0).boundary : ℕ) : ℚ),
          ret :=
            ((mcemLastEntryState 1 20 0 10 1 1 [1] [1] 0 (fun _ => [0])
                (fun _ => [[1]]) (fun x => x) 0).cur_llhood
              + complete_log_likelihood (fun x => x) 0
                  (mstep_lambda [1] ((fun _ : ℕ => [[(1 : ℚ)]]) (1 - 1))
                    ([(1 : ℚ)]).sum 10 1)
                  (mstep_epsilon ((fun _ : ℕ => [(0 : ℚ)]) (1 - 1)) 1 1)
                  ((fun _ : ℕ => [[(1 : ℚ)]]) (1 - 1))
                  ((fun _ : ℕ => [(0 : ℚ)]) (1 - 1)) ([(1 : ℚ)]).sum)
              / ((1 + 20
                - (mcemLastEntryState 1 20 0 10 1 1 [1] [1] 0 (fun _ => [0])
                    (fun _ => [[1]]) (fun x => x) 0).boundary : ℕ) : ℚ) } :=
  ⟨Nat.one_pos, rfl, rfl, by decide, by decide,
    MCEM_hcbn_final_window_average 1 20 0 10 1 1 [1] [1] 0 (fun _ => [0])
      (fun _ => [[1]]) (fun x => x) 0 Nat.one_pos rfl rfl (by decide)
      (by decide)⟩

end MCCBN
